import Mathlib

/-!
# Shallow embedding of SCoWA (Servo Control over Web API), `src/SCoWA.ino`

The firmware controls a servo over HTTP.  We embed the core logic:

* the servo is modelled as a register holding the last commanded position
  (`servo.write` stores the commanded value, `servo.read` returns the last
  commanded value, matching the synchronous-motion assumption that the
  actuator reaches every commanded position);
* positions are `Nat`s; `uint8_t` storage is made explicit as `% 256`
  where a conversion happens in the source (`atoi` result into
  `uint8_t targetpos`, JSON value into `uint8_t unpark`);
* the persistent store (`LittleFS` + `/config.json`, a one-field JSON
  record) is modelled as an `Option Nat`: `some v` is an existing record
  `\x7b"unpark": v\x7d`, `none` means no record / formatted store;
* each handler is a function from the system state (plus, where relevant,
  the parsed HTTP query arguments or a storage-success flag) to the new
  state, the list of servo position commands issued (`writes`), and the
  plain-text HTTP response body.

Every `gotoPos` loop iteration in the source performs one `servo.write`
followed by one `delay(SERVOSPEED)`, so the number of delay pauses equals
the length of the `writes` list.
-/

/-- Compile-time constant `park` (line 39 of the source): minimum servo
position. This is the spec's `MIN_POS`. -/
def park : Nat := 0

/-- The spec's `MIN_POS` (hardware minimum logical position). -/
def MIN_POS : Nat := 0

/-- The spec's `MAX_POS` (hardware maximum logical position); the default
`unpark` value in the source (line 40) is `180`. -/
def MAX_POS : Nat := 180

/-- The default in-memory `unpark` value (line 40 of the source). -/
def unparkDefault : Nat := 180

/-- System state: the servo register (last commanded position), the
in-memory `unpark` global, and the persistent store record. -/
structure SysState where
  pos : Nat
  unpark : Nat
  store : Option Nat
  deriving DecidableEq, Repr

/-- The list of positions commanded by `gotoPos` (lines 121-134): counting
up it writes `cur, cur+1, ..., target`; counting down it writes
`cur, cur-1, ..., target`; if `target == cur` it writes nothing. -/
def gotoPosWrites (cur target : Nat) : List Nat :=
  if cur < target then List.range' cur (target - cur + 1)
  else if target < cur then (List.range' target (cur - target + 1)).reverse
  else []

/-- Effect of a sequence of `servo.write` commands on the servo register:
each write overwrites the register, so the result is the last command (or
the unchanged register if no command was issued). -/
def servoRun (cur : Nat) (ws : List Nat) : Nat := ws.getLastD cur

/-- `gotoPos` (lines 121-134): returns the final servo register value and
the list of commanded positions. -/
def gotoPos (cur target : Nat) : Nat × List Nat :=
  let ws := gotoPosWrites cur target
  (servoRun cur ws, ws)

/-- Number of `delay(SERVOSPEED)` pauses incurred by `gotoPos`: one per
loop iteration, i.e. one per commanded write. -/
def gotoPosDelays (cur target : Nat) : Nat := (gotoPosWrites cur target).length

/-- C `isspace` characters skipped by `atoi`. -/
def isSpaceChar (c : Char) : Bool :=
  c = ' ' || c = '\t' || c = '\n' || c = '\x0b' || c = '\x0c' || c = '\r'

/-- Leading-whitespace skipping of C `atoi`. -/
def skipSpaces : List Char → List Char
  | [] => []
  | c :: cs => if isSpaceChar c then skipSpaces cs else c :: cs

/-- Decimal-digit test. -/
def isDigitChar (c : Char) : Bool := 48 ≤ c.toNat && c.toNat ≤ 57

/-- Accumulate leading decimal digits, stopping at the first non-digit;
with no leading digit the accumulator (0) is returned, as in C `atoi`. -/
def parseDigits : List Char → Nat → Nat
  | [], acc => acc
  | c :: cs, acc =>
    if isDigitChar c then parseDigits cs (acc * 10 + (c.toNat - 48)) else acc

/-- Sign handling of C `atoi` after whitespace skipping. -/
def atoiSigned : List Char → Int
  | [] => 0
  | c :: cs =>
    if c = '-' then -(parseDigits cs 0 : Int)
    else if c = '+' then (parseDigits cs 0 : Int)
    else (parseDigits (c :: cs) 0 : Int)

/-- C `atoi`: skip whitespace, optional sign, leading digits; returns 0
when no digits are found (an unparsable string). -/
def atoi (s : String) : Int := atoiSigned (skipSpaces s.data)

/-- Conversion of a C `int` value to `uint8_t`: reduction modulo 256
(well-defined for unsigned targets). -/
def toUInt8Nat (i : Int) : Nat := (i % 256).toNat

/-- The argument-scanning loop of `handleGoto` (lines 79-83): `targetpos`
starts at `servo.read()` and every argument named `pos` overwrites it with
`atoi` of its value, truncated into the `uint8_t targetpos`; so with
several `pos` arguments the last one wins. -/
def parseTarget (cur : Nat) (args : List (String × String)) : Nat :=
  args.foldl (fun t a => if a.1 = "pos" then toUInt8Nat (atoi a.2) else t) cur

/-- `handleGoto` (lines 75-91): parse the target from the query arguments,
move if it differs from the current position, always answer OK. -/
def handleGoto (st : SysState) (args : List (String × String)) :
    SysState × List Nat × String :=
  let t := parseTarget st.pos args
  if t ≠ st.pos then
    let r := gotoPos st.pos t
    ({ st with pos := r.1 }, r.2, "OK\r\n")
  else (st, [], "OK\r\n")

/-- `handlePark` (lines 93-96): move to the fixed `park` position. -/
def handlePark (st : SysState) : SysState × List Nat × String :=
  let r := gotoPos st.pos park
  ({ st with pos := r.1 }, r.2, "OK\r\n")

/-- `handleUnpark` (lines 98-101): move to the in-memory `unpark`
position. -/
def handleUnpark (st : SysState) : SysState × List Nat × String :=
  let r := gotoPos st.pos st.unpark
  ({ st with pos := r.1 }, r.2, "OK\r\n")

/-- The label chosen by `handleStatus` (lines 106-112): `park` is compared
first, then `unpark`. -/
def statusLabel (pos pk up : Nat) : String :=
  if pos = pk then "parked"
  else if pos = up then "unparked"
  else "custom"

/-- `handleStatus` (lines 103-119): the full response body
`"<label> (<pos>)\r\n"`; the state is unchanged and no servo command is
issued. -/
def handleStatus (st : SysState) : String :=
  statusLabel st.pos park st.unpark ++ " (" ++ toString st.pos ++ ")" ++ "\r\n"

/-- `handleSetParkPosition` (lines 136-149), the `/set` handler: set the
in-memory `unpark` to the current servo position; try to write the record;
on failure only a log line is emitted and the store keeps its previous
contents; either way answer OK. `writeOk` models whether
`LittleFS.open("/config.json", "w")` succeeds. -/
def handleSetParkPosition (st : SysState) (writeOk : Bool) :
    SysState × String :=
  let up := st.pos
  ({ st with
      unpark := up
      store := if writeOk then some up else st.store }, "OK\r\n")

/-- `handleResetParkPosition` (lines 151-155), the `/reset` handler: set
the in-memory `unpark` back to 180 and format the whole filesystem (the
store afterwards holds no record at all). -/
def handleResetParkPosition (st : SysState) : SysState × String :=
  ({ st with unpark := unparkDefault, store := none }, "OK\r\n")

/-- The config-loading part of `setup` (lines 164-176) followed by
`servo.write(park)` (line 179): on (re)start the global `unpark` is 180;
if the filesystem mounts and `/config.json` exists, `unpark` is set to the
record's value (a JSON integer assigned to the `uint8_t unpark`, hence
`% 256`); the store contents survive a restart. -/
def restart (st : SysState) (mountOk : Bool) : SysState :=
  { pos := park
    unpark :=
      if mountOk then
        match st.store with
        | some v => v % 256
        | none => unparkDefault
      else unparkDefault
    store := st.store }

/-- A fresh boot with store contents `s0`. -/
def boot (s0 : Option Nat) (mountOk : Bool) : SysState :=
  restart { pos := park, unpark := unparkDefault, store := s0 } mountOk

/-- One HTTP request, as dispatched by the server (lines 205-212).
`set` carries the storage-success flag; `goto` carries the parsed query
arguments. -/
inductive Event where
  | goto (args : List (String × String))
  | parkReq
  | unparkReq
  | set (writeOk : Bool)
  | reset
  | status
  deriving DecidableEq, Repr

/-- The state transition, servo command list and response of one request. -/
def step (st : SysState) (e : Event) : SysState × List Nat × String :=
  match e with
  | Event.goto args => handleGoto st args
  | Event.parkReq => handlePark st
  | Event.unparkReq => handleUnpark st
  | Event.set w => ((handleSetParkPosition st w).1, [], (handleSetParkPosition st w).2)
  | Event.reset => ((handleResetParkPosition st).1, [], (handleResetParkPosition st).2)
  | Event.status => (st, [], handleStatus st)

/-- Run a list of requests from a state. -/
def run (st : SysState) : List Event → SysState
  | [] => st
  | e :: es => run (step st e).1 es

/-- A state is reachable when some boot followed by some request sequence
produces it. -/
def Reachable (st : SysState) : Prop :=
  ∃ s0 mountOk evs, st = run (boot s0 mountOk) evs

/-- Unit step: two consecutive commanded positions differ by exactly 1. -/
def unitStep (a b : Nat) : Prop := b = a + 1 ∨ a = b + 1

/-! ## Helper lemmas about `gotoPos` -/

theorem chain'_succ_range' : ∀ (n s : Nat), List.Chain' (fun a b => b = a + 1) (List.range' s n)
  | 0, _ => by simp
  | n + 1, s => by
    rw [List.range'_succ, List.chain'_cons']
    refine ⟨?_, chain'_succ_range' n (s + 1)⟩
    intro y hy
    rw [List.head?_range'] at hy
    split at hy
    · simp at hy
    · simp at hy; omega

theorem gotoPosWrites_eq_nil_iff (cur target : Nat) :
    gotoPosWrites cur target = [] ↔ cur = target := by
  unfold gotoPosWrites
  split
  · simp; omega
  · split
    · simp; omega
    · simp; omega

theorem gotoPos_fst (cur target : Nat) : (gotoPos cur target).1 = target := by
  unfold gotoPos gotoPosWrites servoRun
  by_cases h1 : cur < target
  · simp only [h1, if_true, List.getLastD_eq_getLast?, List.getLast?_range']
    split
    · omega
    · simp; omega
  · by_cases h2 : target < cur
    · simp only [h1, if_false, h2, if_true, List.getLastD_eq_getLast?,
        List.getLast?_reverse, List.head?_range']
      split
      · omega
      · simp
    · have h3 : cur = target := by omega
      simp [h1, h2, h3]

theorem gotoPos_snd (cur target : Nat) :
    (gotoPos cur target).2 = gotoPosWrites cur target := rfl

theorem head?_gotoPosWrites (cur target : Nat) (h : cur ≠ target) :
    (gotoPosWrites cur target).head? = some cur := by
  unfold gotoPosWrites
  by_cases h1 : cur < target
  · rw [if_pos h1, List.head?_range']
    split
    · omega
    · rfl
  · have h2 : target < cur := by omega
    rw [if_neg h1, if_pos h2, List.head?_reverse, List.getLast?_range']
    split
    · omega
    · congr 1; omega

theorem getLast?_gotoPosWrites (cur target : Nat) (h : cur ≠ target) :
    (gotoPosWrites cur target).getLast? = some target := by
  unfold gotoPosWrites
  by_cases h1 : cur < target
  · rw [if_pos h1, List.getLast?_range']
    split
    · omega
    · congr 1; omega
  · have h2 : target < cur := by omega
    rw [if_neg h1, if_pos h2, List.getLast?_reverse, List.head?_range']
    split
    · omega
    · rfl

theorem chain'_unitStep_gotoPosWrites (cur target : Nat) :
    List.Chain' unitStep (gotoPosWrites cur target) := by
  unfold gotoPosWrites
  split
  · exact (chain'_succ_range' _ _).imp fun a b h => Or.inl h
  · split
    · rw [List.chain'_reverse]
      exact (chain'_succ_range' _ _).imp fun a b h => Or.inr h
    · simp

theorem mem_gotoPosWrites (cur target k : Nat)
    (h1 : min cur target ≤ k) (h2 : k ≤ max cur target) :
    k ∈ cur :: gotoPosWrites cur target := by
  unfold gotoPosWrites
  by_cases hlt : cur < target
  · rw [if_pos hlt]
    refine List.mem_cons_of_mem _ ?_
    rw [List.mem_range'_1]
    omega
  · by_cases hgt : target < cur
    · rw [if_neg hlt, if_pos hgt]
      refine List.mem_cons_of_mem _ ?_
      rw [List.mem_reverse, List.mem_range'_1]
      omega
    · have : k = cur := by omega
      simp [hlt, hgt, this]

theorem nodup_gotoPosWrites (cur target : Nat) :
    (gotoPosWrites cur target).Nodup := by
  unfold gotoPosWrites
  split
  · exact List.nodup_range' _ _
  · split
    · exact List.nodup_reverse.mpr (List.nodup_range' _ _)
    · simp

theorem length_gotoPosWrites (cur target : Nat) (h : cur ≠ target) :
    (gotoPosWrites cur target).length = max cur target - min cur target + 1 := by
  unfold gotoPosWrites
  by_cases h1 : cur < target
  · rw [if_pos h1]
    simp [List.length_range']
    omega
  · have h2 : target < cur := by omega
    rw [if_neg h1, if_pos h2, List.length_reverse]
    simp [List.length_range']
    omega

theorem mem_gotoPosWrites_of_ne (cur target k : Nat) (hne : cur ≠ target)
    (h1 : min cur target ≤ k) (h2 : k ≤ max cur target) :
    k ∈ gotoPosWrites cur target := by
  unfold gotoPosWrites
  by_cases hlt : cur < target
  · rw [if_pos hlt, List.mem_range'_1]
    omega
  · have hgt : target < cur := by omega
    rw [if_neg hlt, if_pos hgt, List.mem_reverse, List.mem_range'_1]
    omega

theorem gotoPos_writes_spec (cur target : Nat) :
    List.Chain' unitStep (gotoPos cur target).2
    ∧ ((gotoPos cur target).2 = [] → (gotoPos cur target).1 = cur)
    ∧ ((gotoPos cur target).2 ≠ [] →
        (gotoPos cur target).2.head? = some cur
        ∧ (gotoPos cur target).2.getLast? = some (gotoPos cur target).1) := by
  rw [gotoPos_snd]
  refine ⟨chain'_unitStep_gotoPosWrites _ _, ?_, ?_⟩
  · intro hnil
    have h := (gotoPosWrites_eq_nil_iff cur target).mp hnil
    rw [gotoPos_fst, ← h]
  · intro hne
    have hct : cur ≠ target := fun hh => hne ((gotoPosWrites_eq_nil_iff cur target).mpr hh)
    exact ⟨head?_gotoPosWrites _ _ hct,
      by rw [getLast?_gotoPosWrites _ _ hct, gotoPos_fst]⟩

/-! ## Claim theorems -/

set_option maxRecDepth 4000 in
/-- C1 counterexample: the target 200 lies outside `[MIN_POS, MAX_POS]`,
yet `gotoPos` does not fail, performs motion (a nonempty command list) and
changes the current position to 200. -/
theorem C1_counterexample :
    ¬(200 ≤ MAX_POS) ∧ (gotoPos 10 200).2 ≠ []
    ∧ (gotoPos 10 200).1 = 200 ∧ (gotoPos 10 200).1 ≠ 10 := by decide

/-- C1 amended: `gotoPos` performs no range validation and has no error
result at all; its `uint8_t` parameter confines targets to `[0, 255]`, and
for every such target different from the current position — including
every target above `MAX_POS` — it commands motion and leaves the current
position equal to the target, never unchanged, never clamped. -/
theorem C1_amended (cur target : Nat) (hc : cur < 256) (ht : target < 256)
    (hne : cur ≠ target) :
    (gotoPos cur target).2 ≠ [] ∧ (gotoPos cur target).1 = target := by
  rw [gotoPos_snd]
  exact ⟨fun hnil => hne ((gotoPosWrites_eq_nil_iff _ _).mp hnil),
    gotoPos_fst _ _⟩

/-- C1 witness: the amended theorem applied at current position 0 and the
out-of-range target 200. -/
theorem C1_amended_witness :
    (gotoPos 0 200).2 ≠ [] ∧ (gotoPos 0 200).1 = 200 :=
  C1_amended 0 200 (by decide) (by decide) (by decide)

/-- C2: for every valid target in `[MIN_POS, MAX_POS]` and every starting
position, `gotoPos` ends with the current position equal to the target;
the trajectory (starting position followed by the commanded positions)
passes through every integer between the two inclusive — when the target
differs, already the commanded list alone does; and the commanded list is
strictly increasing in unit steps when `target > cur`, strictly decreasing
in unit steps when `target < cur`, with no value skipped or repeated. -/
theorem C2_gotoPos_monotone_traversal (cur target : Nat) (hc : cur < 256)
    (h1 : MIN_POS ≤ target) (h2 : target ≤ MAX_POS) :
    (gotoPos cur target).1 = target
    ∧ (∀ k, min cur target ≤ k → k ≤ max cur target →
        k ∈ cur :: (gotoPos cur target).2)
    ∧ (cur ≠ target → ∀ k, min cur target ≤ k → k ≤ max cur target →
        k ∈ (gotoPos cur target).2)
    ∧ (cur < target →
        (gotoPos cur target).2.head? = some cur
        ∧ (gotoPos cur target).2.getLast? = some target
        ∧ List.Chain' (fun a b => b = a + 1) (gotoPos cur target).2)
    ∧ (target < cur →
        (gotoPos cur target).2.head? = some cur
        ∧ (gotoPos cur target).2.getLast? = some target
        ∧ List.Chain' (fun a b => a = b + 1) (gotoPos cur target).2)
    ∧ (gotoPos cur target).2.Nodup := by
  rw [gotoPos_snd]
  refine ⟨gotoPos_fst _ _,
    fun k hk1 hk2 => mem_gotoPosWrites cur target k hk1 hk2,
    fun hne k hk1 hk2 => mem_gotoPosWrites_of_ne cur target k hne hk1 hk2,
    ?_, ?_, nodup_gotoPosWrites _ _⟩
  · intro hlt
    refine ⟨head?_gotoPosWrites _ _ (by omega),
      getLast?_gotoPosWrites _ _ (by omega), ?_⟩
    unfold gotoPosWrites
    rw [if_pos hlt]
    exact chain'_succ_range' _ _
  · intro hgt
    refine ⟨head?_gotoPosWrites _ _ (by omega),
      getLast?_gotoPosWrites _ _ (by omega), ?_⟩
    unfold gotoPosWrites
    rw [if_neg (by omega), if_pos hgt, List.chain'_reverse]
    exact (chain'_succ_range' _ _).imp fun a b h => h

/-- C2 witness: the theorem applied at starting position 5 and target 2. -/
theorem C2_witness :
    (gotoPos 5 2).1 = 2 :=
  (C2_gotoPos_monotone_traversal 5 2 (by decide) (by decide) (by decide)).1

/-- C8 counterexample: moving from 0 to 1 incurs 2 delay pauses, not
`|1 - 0| = 1`: the loop re-commands the starting position and delays after
it too. -/
theorem C8_counterexample :
    gotoPosDelays 0 1 = 2 ∧ ¬(gotoPosDelays 0 1 = 1) := by decide

/-- C8 amended: `gotoPos` pauses `STEP_DELAY_MS` once per commanded write:
`|target - cur| + 1` times when the target differs from the current
position (the loop writes the starting position too), so the total call
duration is `STEP_DELAY_MS * (|target - cur| + 1)`; `gotoPos` to the
current position is a no-op that issues no command and incurs no delay. -/
theorem C8_amended (cur target : Nat) (hc : cur < 256) (ht : target < 256) :
    (cur = target →
      gotoPosDelays cur target = 0 ∧ (gotoPos cur target).2 = []
      ∧ (gotoPos cur target).1 = cur)
    ∧ (cur ≠ target →
      gotoPosDelays cur target = max cur target - min cur target + 1) := by
  constructor
  · intro heq
    have hnil : gotoPosWrites cur target = [] :=
      (gotoPosWrites_eq_nil_iff cur target).mpr heq
    refine ⟨?_, ?_, ?_⟩
    · unfold gotoPosDelays
      rw [hnil]
      rfl
    · rw [gotoPos_snd]
      exact hnil
    · rw [gotoPos_fst, heq]
  · intro hne
    unfold gotoPosDelays
    exact length_gotoPosWrites cur target hne

/-- C8 witness: the amended theorem applied at (7,7) (no-op) and (0,1)
(two delays). -/
theorem C8_amended_witness :
    gotoPosDelays 7 7 = 0 ∧ gotoPosDelays 0 1 = 2 := by
  refine ⟨((C8_amended 7 7 (by decide) (by decide)).1 rfl).1, ?_⟩
  have h := (C8_amended 0 1 (by decide) (by decide)).2 (by decide)
  omega

theorem parseTarget_eq_of_no_pos :
    ∀ (cur : Nat) (args : List (String × String)),
      (∀ a ∈ args, a.1 ≠ "pos") → parseTarget cur args = cur
  | _, [], _ => rfl
  | cur, a :: as, h => by
    show parseTarget (if a.1 = "pos" then toUInt8Nat (atoi a.2) else cur) as = cur
    rw [if_neg (h a (List.mem_cons_self a as))]
    exact parseTarget_eq_of_no_pos cur as fun b hb => h b (List.mem_cons_of_mem a hb)

/-- C3 counterexample: with current position 50 and the unparsable
argument `pos=abc`, `atoi` yields 0, so the handler moves the actuator to
position 0 — it does not default to the current position and motion does
occur. -/
theorem C3_counterexample :
    atoi "abc" = 0
    ∧ (handleGoto ⟨50, 180, none⟩ [("pos", "abc")]).2.1 ≠ []
    ∧ (handleGoto ⟨50, 180, none⟩ [("pos", "abc")]).1.pos = 0 := by decide

/-- C3 amended: the `/goto` handler always responds `"OK\r\n"`; when the
`pos` parameter is omitted the target stays at the current position and no
motion occurs; but when `pos` is present and unparsable, `atoi` returns 0,
so the target becomes 0 and the actuator moves there whenever the current
position is nonzero. -/
theorem C3_amended (st : SysState) (v : String) (args : List (String × String)) :
    (handleGoto st args).2.2 = "OK\r\n"
    ∧ ((∀ a ∈ args, a.1 ≠ "pos") →
        (handleGoto st args).1 = st ∧ (handleGoto st args).2.1 = [])
    ∧ (atoi v = 0 → st.pos ≠ 0 →
        (handleGoto st [("pos", v)]).1.pos = 0
        ∧ (handleGoto st [("pos", v)]).2.1 ≠ []) := by
  refine ⟨?_, ?_, ?_⟩
  · simp only [handleGoto]
    split <;> rfl
  · intro h
    simp only [handleGoto]
    rw [parseTarget_eq_of_no_pos st.pos args h]
    simp
  · intro h0 hne
    have hp : parseTarget st.pos [("pos", v)] = 0 := by
      show (if ("pos" : String) = "pos" then toUInt8Nat (atoi v) else st.pos) = 0
      rw [if_pos rfl]
      unfold toUInt8Nat
      rw [h0]
      rfl
    simp only [handleGoto]
    rw [hp, if_pos (fun heq => hne heq.symm)]
    refine ⟨gotoPos_fst st.pos 0, ?_⟩
    show gotoPosWrites st.pos 0 ≠ []
    exact fun hnil => hne ((gotoPosWrites_eq_nil_iff _ _).mp hnil)

/-- C3 witness: the amended theorem applied at state (50, 180, no record),
once with no arguments (no motion) and once with the unparsable `pos=abc`
(motion to 0). -/
theorem C3_amended_witness :
    (handleGoto ⟨50, 180, none⟩ []).1 = ⟨50, 180, none⟩
    ∧ (handleGoto ⟨50, 180, none⟩ [("pos", "abc")]).1.pos = 0 :=
  ⟨((C3_amended ⟨50, 180, none⟩ "abc" []).2.1 (by simp)).1,
   ((C3_amended ⟨50, 180, none⟩ "abc" []).2.2 (by decide) (by decide)).1⟩

/-- C5: the `/set` handler updates the in-memory `unpark` to the current
position and responds `"OK\r\n"` for both storage outcomes; when the
storage write fails the store keeps its previous contents and the failure
is not surfaced to the client. -/
theorem C5_set_best_effort (st : SysState) (writeOk : Bool) :
    (handleSetParkPosition st writeOk).1.unpark = st.pos
    ∧ (handleSetParkPosition st writeOk).2 = "OK\r\n"
    ∧ (handleSetParkPosition st false).1.store = st.store :=
  ⟨rfl, rfl, rfl⟩

/-- C6: persistence round-trip — a successful `/set` at current position
`p` followed by a restart whose filesystem mounts yields `unpark = p`. -/
theorem C6_persistence_roundtrip (st : SysState) (h : st.pos < 256) :
    (restart (handleSetParkPosition st true).1 true).unpark = st.pos := by
  show st.pos % 256 = st.pos
  exact Nat.mod_eq_of_lt h

/-- C6 witness: the round-trip at current position 45. -/
theorem C6_witness :
    (restart (handleSetParkPosition ⟨45, 180, none⟩ true).1 true).unpark = 45 :=
  C6_persistence_roundtrip ⟨45, 180, none⟩ (by decide)

/-- C7: `/reset` sets the in-memory `unpark` to `MAX_POS` (= 180, the
default) and erases the entire persistent store; after a restart (whether
or not the filesystem mounts) `unpark` is again `MAX_POS` and the store
still holds no record. -/
theorem C7_reset_semantics (st : SysState) (mountOk : Bool) :
    (handleResetParkPosition st).1.unpark = MAX_POS
    ∧ (handleResetParkPosition st).1.store = none
    ∧ (restart (handleResetParkPosition st).1 mountOk).unpark = MAX_POS
    ∧ (restart (handleResetParkPosition st).1 mountOk).store = none
    ∧ unparkDefault = MAX_POS := by
  cases mountOk <;> exact ⟨rfl, rfl, rfl, rfl, rfl⟩

/-- C9: the status classifier is a pure function of the position and the
two presets: position equal to `park` gives `parked`; otherwise equal to
`unpark` gives `unparked`; otherwise `custom`; `park` is compared first,
so when both presets coincide `parked` wins. -/
theorem C9_status_classifier (st : SysState) :
    (st.pos = park →
      handleStatus st = "parked" ++ " (" ++ toString st.pos ++ ")" ++ "\r\n")
    ∧ (st.pos ≠ park → st.pos = st.unpark →
      handleStatus st = "unparked" ++ " (" ++ toString st.pos ++ ")" ++ "\r\n")
    ∧ (st.pos ≠ park → st.pos ≠ st.unpark →
      handleStatus st = "custom" ++ " (" ++ toString st.pos ++ ")" ++ "\r\n")
    ∧ (st.pos = park → st.pos = st.unpark →
      handleStatus st = "parked" ++ " (" ++ toString st.pos ++ ")" ++ "\r\n") := by
  unfold handleStatus statusLabel
  exact ⟨fun h1 => by rw [if_pos h1],
    fun h1 h2 => by rw [if_neg h1, if_pos h2],
    fun h1 h2 => by rw [if_neg h1, if_neg h2],
    fun h1 _ => by rw [if_pos h1]⟩

/-- C9 witness: the classifier theorem applied at the tie-break state
(both presets 0, position 0 → parked) and at a custom state. -/
theorem C9_witness :
    handleStatus ⟨0, 0, none⟩ = "parked" ++ " (" ++ toString (0 : Nat) ++ ")" ++ "\r\n"
    ∧ handleStatus ⟨45, 180, none⟩ = "custom" ++ " (" ++ toString (45 : Nat) ++ ")" ++ "\r\n" :=
  ⟨(C9_status_classifier ⟨0, 0, none⟩).2.2.2 rfl rfl,
   (C9_status_classifier ⟨45, 180, none⟩).2.2.1 (by decide) (by decide)⟩

set_option maxRecDepth 8000 in
/-- C10: the `/goto` handler stores `atoi` of the `pos` value into a
`uint8_t`, so the effective target is the parsed value reduced modulo 256;
with several `pos` parameters the last one wins; `pos=436` moves to 180
and `pos=-1` moves to 255. -/
theorem C10_uint8_truncation (cur : Nat) (v : String)
    (args : List (String × String)) :
    parseTarget cur [("pos", v)] = toUInt8Nat (atoi v)
    ∧ parseTarget cur (args ++ [("pos", v)]) = toUInt8Nat (atoi v)
    ∧ toUInt8Nat (atoi "436") = 180
    ∧ toUInt8Nat (atoi "-1") = 255
    ∧ (handleGoto ⟨0, 180, none⟩ [("pos", "436")]).1.pos = 180
    ∧ (handleGoto ⟨0, 180, none⟩ [("pos", "-1")]).1.pos = 255 := by
  have single : ∀ (c : Nat), parseTarget c [("pos", v)] = toUInt8Nat (atoi v) := by
    intro c
    show (if ("pos" : String) = "pos" then toUInt8Nat (atoi v) else c) = toUInt8Nat (atoi v)
    rw [if_pos rfl]
  refine ⟨single cur, ?_, by decide, by decide, by decide, by decide⟩
  unfold parseTarget
  rw [List.foldl_append]
  exact single _

/-! ## State invariant and the stepping discipline (C4) -/

/-- The range invariant the code actually maintains: position and `unpark`
fit in a `uint8_t`. -/
def SysInv (st : SysState) : Prop := st.pos < 256 ∧ st.unpark < 256

theorem toUInt8Nat_lt (i : Int) : toUInt8Nat i < 256 := by
  unfold toUInt8Nat
  omega

theorem parseTarget_lt :
    ∀ (args : List (String × String)) (cur : Nat),
      cur < 256 → parseTarget cur args < 256
  | [], _, h => h
  | a :: as, cur, h =>
    parseTarget_lt as (if a.1 = "pos" then toUInt8Nat (atoi a.2) else cur)
      (by split
          · exact toUInt8Nat_lt _
          · exact h)

theorem step_inv (st : SysState) (e : Event) (h : SysInv st) : SysInv (step st e).1 := by
  obtain ⟨h1, h2⟩ := h
  cases e with
  | goto args =>
    simp only [step, handleGoto]
    split
    · exact ⟨by rw [gotoPos_fst]; exact parseTarget_lt args st.pos h1, h2⟩
    · exact ⟨h1, h2⟩
  | parkReq =>
    refine ⟨?_, h2⟩
    show (gotoPos st.pos park).1 < 256
    rw [gotoPos_fst]
    decide
  | unparkReq =>
    refine ⟨?_, h2⟩
    show (gotoPos st.pos st.unpark).1 < 256
    rw [gotoPos_fst]
    exact h2
  | set w => exact ⟨h1, h1⟩
  | reset => exact ⟨h1, show unparkDefault < 256 by decide⟩
  | status => exact ⟨h1, h2⟩

theorem run_inv : ∀ (evs : List Event) (st : SysState), SysInv st → SysInv (run st evs)
  | [], _, h => h
  | e :: es, st, h => run_inv es (step st e).1 (step_inv st e h)

theorem boot_inv (s0 : Option Nat) (m : Bool) : SysInv (boot s0 m) := by
  cases m with
  | false => exact ⟨show park < 256 by decide, show unparkDefault < 256 by decide⟩
  | true =>
    refine ⟨show park < 256 by decide, ?_⟩
    show (match s0 with | some v => v % 256 | none => unparkDefault) < 256
    cases s0 with
    | none => decide
    | some v => exact Nat.mod_lt _ (by omega)

theorem step_writes_unitChain (st : SysState) (e : Event) :
    List.Chain' unitStep (step st e).2.1
    ∧ ((step st e).2.1 = [] → (step st e).1.pos = st.pos)
    ∧ ((step st e).2.1 ≠ [] →
        (step st e).2.1.head? = some st.pos
        ∧ (step st e).2.1.getLast? = some (step st e).1.pos) := by
  cases e with
  | goto args =>
    simp only [step, handleGoto]
    split
    · exact gotoPos_writes_spec st.pos (parseTarget st.pos args)
    · exact ⟨List.chain'_nil, fun _ => rfl, fun h => absurd rfl h⟩
  | parkReq => exact gotoPos_writes_spec st.pos park
  | unparkReq => exact gotoPos_writes_spec st.pos st.unpark
  | set w => exact ⟨List.chain'_nil, fun _ => rfl, fun h => absurd rfl h⟩
  | reset => exact ⟨List.chain'_nil, fun _ => rfl, fun h => absurd rfl h⟩
  | status => exact ⟨List.chain'_nil, fun _ => rfl, fun h => absurd rfl h⟩

set_option maxRecDepth 8000 in
/-- C4 counterexample: the state with position 200 is reachable (boot with
an empty store, then `/goto?pos=200`), and 200 lies outside
`[MIN_POS, MAX_POS]`, so the claimed range invariant fails. -/
theorem C4_counterexample :
    Reachable { pos := 200, unpark := 180, store := none }
    ∧ ¬(200 ≤ MAX_POS) :=
  ⟨⟨none, true, [Event.goto [("pos", "200")]], by decide⟩, by decide⟩

/-- C4 amended: on every reachable state the position is only guaranteed
to lie in the `uint8_t` range `[0, 255]` (positions above `MAX_POS` are
reachable); the stepping discipline does hold: every request changes the
position only through the unit-stepping algorithm — the commanded list of
each step is a chain of unit moves that starts at the old position and
ends at the new one, and a step that issues no command leaves the
position unchanged. -/
theorem C4_amended (st : SysState) (h : Reachable st) :
    st.pos < 256
    ∧ ∀ e, List.Chain' unitStep (step st e).2.1
      ∧ ((step st e).2.1 = [] → (step st e).1.pos = st.pos)
      ∧ ((step st e).2.1 ≠ [] →
          (step st e).2.1.head? = some st.pos
          ∧ (step st e).2.1.getLast? = some (step st e).1.pos) := by
  obtain ⟨s0, m, evs, rfl⟩ := h
  exact ⟨(run_inv evs _ (boot_inv s0 m)).1, fun e => step_writes_unitChain _ e⟩

set_option maxRecDepth 8000 in
/-- C4 witness: the amended theorem applied to the reachable state after
`/goto?pos=200` from a fresh boot. -/
theorem C4_amended_witness :
    (run (boot none true) [Event.goto [("pos", "200")]]).pos < 256 :=
  (C4_amended (run (boot none true) [Event.goto [("pos", "200")]])
    ⟨none, true, [Event.goto [("pos", "200")]], rfl⟩).1
